import Mathlib

set_option autoImplicit false

/-! Shallow embedding of `src/src/LinkedList/index.ts`: a mutable singly
linked list implemented over an explicit arena of nodes.  Node references
are modelled as indices into an append-only arena, so aliasing between
`head`, `tail` and inner `next` links behaves exactly as JavaScript object
references do, and `delete`d fields read back as `undefined`. -/

/-- JavaScript values stored in the list.  Numbers are modelled as integers
(no claim involves NaN or fractional values); `obj id` models a reference
value, whose strict equality is identity of the reference. -/
inductive JSVal where
  | null
  | undef
  | num (n : Int)
  | str (s : String)
  | bool (b : Bool)
  | obj (id : Nat)
deriving DecidableEq, Repr

/-- JavaScript truthiness of a modelled value, as tested by `if (!value)`. -/
def JSVal.truthy : JSVal → Bool
  | .null => false
  | .undef => false
  | .num n => n != 0
  | .str s => s != ""
  | .bool b => b
  | .obj _ => true

/-- A node reference: `null`, `undefined` (a deleted field reads back as
`undefined`), or a reference into the arena. -/
inductive Ptr where
  | null
  | undef
  | ref (n : Nat)
deriving DecidableEq, Repr

/-- Pointer truthiness: object references are truthy, `null` and `undefined`
are falsy. -/
def Ptr.truthy : Ptr → Bool
  | .ref _ => true
  | _ => false

/-- The two fields of the source `Node<T>` type. -/
structure NodeObj where
  next : Ptr
  value : JSVal
deriving DecidableEq, Repr

/-- The `LinkedList` object: private fields `head`, `tail`, `size`, plus the
arena of every node allocated so far (removed nodes stay in the arena; the
source merely strips their fields). -/
structure LinkedList where
  heap : List NodeObj
  head : Ptr
  tail : Ptr
  size : Int
deriving DecidableEq, Repr

/-- Dereference a node.  References produced by the source are always in
bounds, so the default is never consulted in any theorem below. -/
def getNode (h : List NodeObj) (n : Nat) : NodeObj :=
  h.getD n ⟨Ptr.undef, JSVal.undef⟩

/-- Assignment `node.next = p`. -/
def setNext (h : List NodeObj) (n : Nat) (p : Ptr) : List NodeObj :=
  h.set n ⟨p, (getNode h n).value⟩

/-- The private `deleteNode`: `delete node.next; delete node.value`, after
which both fields read back as `undefined`. -/
def deleteNode (h : List NodeObj) (n : Nat) : List NodeObj :=
  h.set n ⟨Ptr.undef, JSVal.undef⟩

/-- Allocation of a fresh node object literal `\x7b value, next \x7d`. -/
def alloc (h : List NodeObj) (v : JSVal) (p : Ptr) : List NodeObj × Nat :=
  (h ++ [⟨p, v⟩], h.length)

/-- Exceptions thrown by the source (each message abbreviated to its kind
and offending index), plus the JavaScript `TypeError` raised by a member
access on `null` or `undefined`. -/
inductive JSErr where
  | emptyPop
  | emptyShift
  | notExistAdd (index : Int)
  | notExist (index : Int)
  | noItem (index : Int)
  | typeError
deriving DecidableEq, Repr

/-- The no-argument constructor: `head = tail = null`, `size = 0`. -/
def newList : LinkedList := ⟨[], Ptr.null, Ptr.null, 0⟩

/-- The private `addToEnd` (used by `push` and by the array constructor).
When `tail !== null` the source assigns `this.tail.next`, which would be a
`TypeError` were `tail` the value `undefined`. -/
def addToEnd (L : LinkedList) (item : JSVal) : Except JSErr LinkedList :=
  match L.tail with
  | Ptr.null =>
      let (h, n) := alloc L.heap item Ptr.null
      Except.ok { heap := h, head := Ptr.ref n, tail := Ptr.ref n, size := L.size + 1 }
  | Ptr.undef => Except.error JSErr.typeError
  | Ptr.ref t =>
      let (h, n) := alloc L.heap item Ptr.null
      Except.ok { heap := setNext h t (Ptr.ref n), head := L.head, tail := Ptr.ref n,
                  size := L.size + 1 }

/-- The private `addToFront` (used by `unshift`).  It performs no member
access on a possibly absent reference, so it never throws. -/
def addToFront (L : LinkedList) (item : JSVal) : LinkedList :=
  match L.tail with
  | Ptr.null =>
      let (h, n) := alloc L.heap item Ptr.null
      { heap := h, head := Ptr.ref n, tail := Ptr.ref n, size := L.size + 1 }
  | _ =>
      let (h, n) := alloc L.heap item L.head
      { heap := h, head := Ptr.ref n, tail := L.tail, size := L.size + 1 }

/-- The single-value constructor path: `if (!value) return this;`, then one
node with `head = tail =` that node and `size = 1`.  For the modelled value
type `Array.isArray` is always false, so the array branch is skipped. -/
def mkSingle (v : JSVal) : LinkedList :=
  if v.truthy = false then newList
  else
    let (h, n) := alloc newList.heap v Ptr.null
    { heap := h, head := Ptr.ref n, tail := Ptr.ref n, size := newList.size + 1 }

/-- The array constructor path: `value.forEach((item) => this.addToEnd(item))`
starting from the freshly initialised empty object. -/
def fromArrayE (xs : List JSVal) : Except JSErr LinkedList :=
  xs.foldlM addToEnd newList

/-- Fuel-indexed rendering of the `nodeAt` loop
`while (currentNode && currentNode.next && i < index)`: the fuel is
`index - i`, and the fuel left on exit is returned (so `i < index` held on
exit iff the returned fuel is nonzero). -/
def nodeAtLoop (h : List NodeObj) : Ptr → Nat → Ptr × Nat
  | cur, 0 => (cur, 0)
  | cur, k + 1 =>
      match cur with
      | Ptr.ref n =>
          match (getNode h n).next with
          | Ptr.ref m => nodeAtLoop h (Ptr.ref m) k
          | _ => (cur, k + 1)
      | _ => (cur, k + 1)

/-- The private `nodeAt`.  The only member access that can hit an absent
reference is `currentNode.next` in the early-exit test, reached when `head`
is `undefined` (because `undefined === null` is false). -/
def nodeAt (L : LinkedList) (index : Int) : Except JSErr Ptr :=
  if index < 0 then Except.ok Ptr.null
  else if index = 0 then Except.ok L.head
  else
    match L.head with
    | Ptr.null => Except.ok Ptr.null
    | Ptr.undef => Except.error JSErr.typeError
    | Ptr.ref n =>
        if (getNode L.heap n).next = Ptr.null then Except.ok Ptr.null
        else
          match nodeAtLoop L.heap (Ptr.ref n) (index - 1).toNat with
          | (cur, 0) => Except.ok cur
          | (_, _ + 1) => Except.ok Ptr.null

/-- The public `pop` (spec name `popLast`). -/
def pop (L : LinkedList) : Except JSErr (JSVal × LinkedList) :=
  if L.head = Ptr.null then Except.error JSErr.emptyPop
  else
    match nodeAt L (L.size - 2) with
    | Except.error e => Except.error e
    | Except.ok Ptr.null =>
        match L.head with
        | Ptr.ref n =>
            Except.ok ((getNode L.heap n).value,
              { heap := L.heap, head := Ptr.null, tail := Ptr.null, size := L.size - 1 })
        | _ => Except.error JSErr.typeError
    | Except.ok (Ptr.ref m) =>
        match L.tail with
        | Ptr.ref t =>
            Except.ok ((getNode L.heap t).value,
              { heap := setNext L.heap m Ptr.null, head := L.head, tail := Ptr.ref m,
                size := L.size - 1 })
        | _ => Except.error JSErr.typeError
    | Except.ok Ptr.undef => Except.error JSErr.typeError

/-- The public `shift` (spec name `popFirst`).  Note the source branch: when
the first node HAS a successor both ends are cleared, and only when it has
none does `head` advance (to that absent successor), `tail` untouched. -/
def shift (L : LinkedList) : Except JSErr (JSVal × LinkedList) :=
  match L.head with
  | Ptr.null => Except.error JSErr.emptyShift
  | Ptr.undef => Except.error JSErr.typeError
  | Ptr.ref n =>
      let result := (getNode L.heap n).value
      if ((getNode L.heap n).next).truthy then
        Except.ok (result,
          { heap := L.heap, head := Ptr.null, tail := Ptr.null, size := L.size - 1 })
      else
        Except.ok (result,
          { heap := L.heap, head := (getNode L.heap n).next, tail := L.tail,
            size := L.size - 1 })

/-- The public `addAfter` (spec name `insertAfter`). -/
def addAfter (L : LinkedList) (index : Int) (value : JSVal) : Except JSErr LinkedList :=
  match nodeAt L index with
  | Except.error e => Except.error e
  | Except.ok Ptr.null => Except.error (JSErr.notExistAdd index)
  | Except.ok Ptr.undef => Except.error JSErr.typeError
  | Except.ok (Ptr.ref n) =>
      let (h, m) := alloc L.heap value (getNode L.heap n).next
      Except.ok { heap := setNext h n (Ptr.ref m), head := L.head, tail := L.tail,
                  size := L.size + 1 }

/-- The public `removeAt`. -/
def removeAt (L : LinkedList) (index : Int) : Except JSErr LinkedList :=
  match nodeAt L (index - 1) with
  | Except.error e => Except.error e
  | Except.ok Ptr.null => Except.error (JSErr.notExist index)
  | Except.ok Ptr.undef => Except.error JSErr.typeError
  | Except.ok (Ptr.ref n) =>
      match (getNode L.heap n).next with
      | Ptr.null => Except.error (JSErr.notExist index)
      | Ptr.undef => Except.error JSErr.typeError
      | Ptr.ref m =>
          let nextNode := (getNode L.heap m).next
          Except.ok { heap := deleteNode (setNext L.heap n nextNode) m,
                      head := L.head, tail := L.tail, size := L.size - 1 }

/-- The loop of `at`: `while (i < index && node)`, stepping `node = node.next`. -/
def atLoop (h : List NodeObj) : Ptr → Nat → Ptr
  | cur, 0 => cur
  | cur, k + 1 =>
      match cur with
      | Ptr.ref n => atLoop h (getNode h n).next k
      | _ => cur

/-- The public `at` (Lean cannot reuse the keyword `at` as a name).  After
the loop only `node === null` raises the documented error; an `undefined`
node instead hits `node.value`, a `TypeError`. -/
def atIndex (L : LinkedList) (index : Int) : Except JSErr JSVal :=
  match atLoop L.heap L.head index.toNat with
  | Ptr.null => Except.error (JSErr.noItem index)
  | Ptr.undef => Except.error JSErr.typeError
  | Ptr.ref n => Except.ok (getNode L.heap n).value

/-- The loop of `clear`, trashing each node after reading its successor.
The fuel only caps the traversal: `none` would mean a chain longer than the
arena, which no state appearing in a theorem below produces. -/
def clearLoop : List NodeObj → Ptr → Nat → Option (List NodeObj)
  | _, _, 0 => none
  | h, Ptr.ref n, fuel + 1 => clearLoop (deleteNode h n) (getNode h n).next fuel
  | h, _, _ + 1 => some h

/-- The public `clear`: strips every reachable node and zeroes `size`, but
leaves `head` and `tail` exactly as they were. -/
def clear (L : LinkedList) : Option LinkedList :=
  (clearLoop L.heap L.head (L.heap.length + 1)).map
    (fun h => { heap := h, head := L.head, tail := L.tail, size := 0 })

/-- The loop of `toArray`, accumulating `result.push(node.value)`. -/
def toArrayLoop (h : List NodeObj) : Ptr → List JSVal → Nat → Option (List JSVal)
  | _, _, 0 => none
  | cur, acc, fuel + 1 =>
      match cur with
      | Ptr.ref n => toArrayLoop h (getNode h n).next (acc ++ [(getNode h n).value]) fuel
      | _ => some acc

/-- The public `toArray` (spec name `toSequence`). -/
def toArray (L : LinkedList) : Option (List JSVal) :=
  toArrayLoop L.heap L.head [] (L.heap.length + 1)

/-- The loop of `search`: `while (node && node.value !== value)`, counting
`index++` per step. -/
def searchLoop (h : List NodeObj) (value : JSVal) : Ptr → Nat → Nat → Option Nat
  | _, _, 0 => none
  | cur, index, fuel + 1 =>
      match cur with
      | Ptr.ref n =>
          if (getNode h n).value = value then some index
          else searchLoop h value (getNode h n).next (index + 1) fuel
      | _ => some index

/-- The public `search` (spec name `indexOf`). -/
def search (L : LinkedList) (value : JSVal) : Option Nat :=
  searchLoop L.heap value L.head 0 (L.heap.length + 1)

/-- The generator `[Symbol.iterator]`, rendered as the list of values it
yields before exhausting the chain. -/
def iterLoop (h : List NodeObj) : Ptr → Nat → Option (List JSVal)
  | _, 0 => none
  | cur, fuel + 1 =>
      match cur with
      | Ptr.ref n =>
          Option.map (fun rest => (getNode h n).value :: rest)
            (iterLoop h (getNode h n).next fuel)
      | _ => some []

/-- The full value sequence produced by the iteration protocol. -/
def iterValues (L : LinkedList) : Option (List JSVal) :=
  iterLoop L.heap L.head (L.heap.length + 1)

/-- Closed form of the arena produced by building a list from `xs` by
repeated `addToEnd`: node `i` holds element `i` and points at node `i + 1`,
the last node at `null`. -/
def chainHeap (xs : List JSVal) : List NodeObj :=
  (List.range xs.length).map
    (fun i => ⟨if i + 1 = xs.length then Ptr.null else Ptr.ref (i + 1), xs.getD i JSVal.undef⟩)

/-- Closed form of the whole list state built from `xs`; the lemma
`fromArrayE_ok` below proves it equal to what the array constructor returns. -/
def mkChain (xs : List JSVal) : LinkedList :=
  { heap := chainHeap xs,
    head := if xs.length = 0 then Ptr.null else Ptr.ref 0,
    tail := if xs.length = 0 then Ptr.null else Ptr.ref (xs.length - 1),
    size := (xs.length : Int) }

/-- The values laid along a null-terminated chain of the arena `h`
starting at pointer `p`. -/
inductive Chain (h : List NodeObj) : Ptr → List JSVal → Prop where
  | nil : Chain h Ptr.null []
  | cons (n : Nat) (p : Ptr) (v : JSVal) (vs : List JSVal) :
      getNode h n = ⟨p, v⟩ → Chain h p vs → Chain h (Ptr.ref n) (v :: vs)

/-- C1: popFirst should remove and return the first value and, when the
first node has a successor, advance `first` to it leaving `last` unchanged.
The source branch is inverted: on the list [1, 2] it returns 1 but clears
both `head` and `tail` while decrementing `size` to 1, and prepending 1 to
[2] and then shifting likewise destroys the remaining content instead of
restoring the list [2] of length 1. -/
theorem c1_shift_inverted_branch :
    fromArrayE [JSVal.num 1, JSVal.num 2] = Except.ok (mkChain [JSVal.num 1, JSVal.num 2]) ∧
    shift (mkChain [JSVal.num 1, JSVal.num 2]) =
      Except.ok (JSVal.num 1,
        { heap := [⟨Ptr.ref 1, JSVal.num 1⟩, ⟨Ptr.null, JSVal.num 2⟩],
          head := Ptr.null, tail := Ptr.null, size := 1 }) ∧
    toArray { heap := [⟨Ptr.ref 1, JSVal.num 1⟩, ⟨Ptr.null, JSVal.num 2⟩],
              head := Ptr.null, tail := Ptr.null, size := 1 } = some [] ∧
    shift (addToFront (mkChain [JSVal.num 2]) (JSVal.num 1)) =
      Except.ok (JSVal.num 1,
        { heap := [⟨Ptr.null, JSVal.num 2⟩, ⟨Ptr.ref 0, JSVal.num 1⟩],
          head := Ptr.null, tail := Ptr.null, size := 1 }) :=
  ⟨rfl, rfl, rfl, rfl⟩

/-- C2: popLast should sever after the node at index count-2 and leave the
remaining contents unchanged, so append then popLast is a no-op.  On
[1, 2, 3] (equally: append 3 to [1, 2], then pop) the code returns 3 but,
because `nodeAt (size - 2)` resolves one node too early, severs the chain
after index 0: the contents become [1] while `size` says 2. -/
theorem c2_pop_cuts_one_node_early :
    addToEnd (mkChain [JSVal.num 1, JSVal.num 2]) (JSVal.num 3) =
      Except.ok (mkChain [JSVal.num 1, JSVal.num 2, JSVal.num 3]) ∧
    pop (mkChain [JSVal.num 1, JSVal.num 2, JSVal.num 3]) =
      Except.ok (JSVal.num 3,
        { heap := [⟨Ptr.null, JSVal.num 1⟩, ⟨Ptr.ref 2, JSVal.num 2⟩, ⟨Ptr.null, JSVal.num 3⟩],
          head := Ptr.ref 0, tail := Ptr.ref 0, size := 2 }) ∧
    toArray { heap := [⟨Ptr.null, JSVal.num 1⟩, ⟨Ptr.ref 2, JSVal.num 2⟩, ⟨Ptr.null, JSVal.num 3⟩],
              head := Ptr.ref 0, tail := Ptr.ref 0, size := 2 } = some [JSVal.num 1] :=
  ⟨rfl, rfl, rfl⟩

/-- C3: insertAfter(1, 99) on [0, 1, 2] should produce [0, 1, 99, 2].  The
code anchors one node to the left (`nodeAt 1` returns the node at index 0)
and produces [0, 99, 1, 2]. -/
theorem c3_addAfter_anchors_one_left :
    fromArrayE [JSVal.num 0, JSVal.num 1, JSVal.num 2] =
      Except.ok (mkChain [JSVal.num 0, JSVal.num 1, JSVal.num 2]) ∧
    Except.map toArray
        (addAfter (mkChain [JSVal.num 0, JSVal.num 1, JSVal.num 2]) 1 (JSVal.num 99)) =
      Except.ok (some [JSVal.num 0, JSVal.num 99, JSVal.num 1, JSVal.num 2]) :=
  ⟨rfl, rfl⟩

/-- C4: the data-model invariants should hold after every public operation,
in particular count = 0 iff `last` is absent.  After shift on the singleton
[1] the code leaves size 0 and `head` null but `tail` still referencing the
removed node, and after shift on [1, 2] it leaves size 1 with `head` null. -/
theorem c4_invariants_broken_by_shift :
    shift (mkChain [JSVal.num 1]) =
      Except.ok (JSVal.num 1,
        { heap := [⟨Ptr.null, JSVal.num 1⟩], head := Ptr.null, tail := Ptr.ref 0, size := 0 }) ∧
    Ptr.ref 0 ≠ Ptr.null ∧
    Except.map (fun p => ((p.2).size, (p.2).head))
        (shift (mkChain [JSVal.num 1, JSVal.num 2])) = Except.ok (1, Ptr.null) :=
  ⟨rfl, by decide, rfl⟩

/-- C5: removeAt with a valid index should remove the node at that index,
index 0 advancing `first`.  The code always throws on index 0 (it looks up
the node at index -1, which is null), and at index 2 on [1, 2, 3] it
removes the node at index 1 instead, yielding [1, 3]. -/
theorem c5_removeAt_zero_throws :
    fromArrayE [JSVal.num 1, JSVal.num 2, JSVal.num 3] =
      Except.ok (mkChain [JSVal.num 1, JSVal.num 2, JSVal.num 3]) ∧
    removeAt (mkChain [JSVal.num 1, JSVal.num 2, JSVal.num 3]) 0 =
      Except.error (JSErr.notExist 0) ∧
    Except.map toArray (removeAt (mkChain [JSVal.num 1, JSVal.num 2, JSVal.num 3]) 2) =
      Except.ok (some [JSVal.num 1, JSVal.num 3]) :=
  ⟨rfl, rfl, rfl⟩

/-- C6: every indexed operation should fail exactly outside [0, count).
The code violates this three ways: `at(-1)` on [1] returns the first value
instead of raising; `insertAfter(2, 9)` on the two-element list [1, 2]
succeeds although 2 = count (and leaves `tail` no longer last); and
`removeAt(0)` fails although 0 is in range. -/
theorem c6_index_validation_gaps :
    atIndex (mkChain [JSVal.num 1]) (-1) = Except.ok (JSVal.num 1) ∧
    addAfter (mkChain [JSVal.num 1, JSVal.num 2]) 2 (JSVal.num 9) =
      Except.ok { heap := [⟨Ptr.ref 1, JSVal.num 1⟩, ⟨Ptr.ref 2, JSVal.num 2⟩,
                          ⟨Ptr.null, JSVal.num 9⟩],
                  head := Ptr.ref 0, tail := Ptr.ref 1, size := 3 } ∧
    removeAt (mkChain [JSVal.num 1, JSVal.num 2]) 0 = Except.error (JSErr.notExist 0) :=
  ⟨rfl, rfl, rfl⟩

/-- C7: clear should reset to the empty state with `first` and `last`
absent so that toSequence is empty.  The code only strips the node fields
and zeroes `size`: `head` and `tail` still reference the gutted node, and
toArray (like iteration) afterwards yields the single value `undefined`. -/
theorem c7_clear_leaves_dangling_ends :
    clear (mkChain [JSVal.num 1]) =
      some { heap := [⟨Ptr.undef, JSVal.undef⟩],
             head := Ptr.ref 0, tail := Ptr.ref 0, size := 0 } ∧
    toArray { heap := [⟨Ptr.undef, JSVal.undef⟩],
              head := Ptr.ref 0, tail := Ptr.ref 0, size := 0 } = some [JSVal.undef] ∧
    iterValues { heap := [⟨Ptr.undef, JSVal.undef⟩],
                 head := Ptr.ref 0, tail := Ptr.ref 0, size := 0 } = some [JSVal.undef] ∧
    Ptr.ref 0 ≠ Ptr.null :=
  ⟨rfl, rfl, rfl, by decide⟩

/-- C9 counterexample: constructing from the single value 0, which is
falsy, yields the empty list rather than a one-node list holding 0, because
the constructor starts with `if (!value) return this`. -/
theorem c9_falsy_single_value_ignored :
    (mkSingle (JSVal.num 0)).size ≠ 1 ∧ mkSingle (JSVal.num 0) = newList := by
  decide

/-- C9 (amended): for every value v that is JS-truthy (and not an array),
the single-value constructor yields exactly one node holding v, with `head`
and `tail` both referencing that node and size 1. -/
theorem c9_truthy_single_value (v : JSVal) (h : v.truthy = true) :
    mkSingle v =
      { heap := [⟨Ptr.null, v⟩], head := Ptr.ref 0, tail := Ptr.ref 0, size := 1 } := by
  simp [mkSingle, h, newList, alloc]

theorem c9_truthy_single_value_witness :
    JSVal.truthy (JSVal.num 5) = true ∧
    mkSingle (JSVal.num 5) =
      { heap := [⟨Ptr.null, JSVal.num 5⟩], head := Ptr.ref 0, tail := Ptr.ref 0, size := 1 } :=
  ⟨rfl, c9_truthy_single_value (JSVal.num 5) rfl⟩
theorem chainHeap_length (xs : List JSVal) : (chainHeap xs).length = xs.length := by
  unfold chainHeap
  rw [List.length_map, List.length_range]

theorem chainHeap_getElem? (xs : List JSVal) (i : Nat) :
    (chainHeap xs)[i]? =
      if i < xs.length then
        some ⟨if i + 1 = xs.length then Ptr.null else Ptr.ref (i + 1), xs.getD i JSVal.undef⟩
      else none := by
  unfold chainHeap
  rw [List.getElem?_map]
  by_cases hi : i < xs.length
  · rw [List.getElem?_range hi, if_pos hi]
    rfl
  · rw [List.getElem?_eq_none (by simpa using Nat.le_of_not_lt hi), if_neg hi]
    rfl

theorem chainHeap_getNode (xs : List JSVal) (k : Nat) (hk : k < xs.length) :
    getNode (chainHeap xs) k =
      ⟨if k + 1 = xs.length then Ptr.null else Ptr.ref (k + 1), xs.getD k JSVal.undef⟩ := by
  unfold getNode
  rw [List.getD_eq_getElem?_getD, chainHeap_getElem?, if_pos hk]
  rfl
theorem chainHeap_snoc (xs : List JSVal) (v : JSVal) (hx : 0 < xs.length) :
    setNext (chainHeap xs ++ [⟨Ptr.null, v⟩]) (xs.length - 1) (Ptr.ref xs.length) =
      chainHeap (xs ++ [v]) := by
  have hnode : getNode (chainHeap xs ++ [⟨Ptr.null, v⟩]) (xs.length - 1) =
      ⟨Ptr.null, xs.getD (xs.length - 1) JSVal.undef⟩ := by
    unfold getNode
    rw [List.getD_eq_getElem?_getD,
        List.getElem?_append_left (by rw [chainHeap_length]; omega),
        chainHeap_getElem?, if_pos (by omega), if_pos (by omega)]
    rfl
  have hlap : (xs ++ [v]).length = xs.length + 1 := by simp
  have hlchb : (chainHeap xs ++ [(⟨Ptr.null, v⟩ : NodeObj)]).length = xs.length + 1 := by
    rw [List.length_append, chainHeap_length]
    rfl
  unfold setNext
  rw [hnode]
  apply List.ext_getElem?
  intro i
  rw [List.getElem?_set, chainHeap_getElem?, hlap, hlchb]
  by_cases hset : xs.length - 1 = i
  · rw [if_pos hset, if_pos (show xs.length - 1 < xs.length + 1 by omega),
        if_pos (show i < xs.length + 1 by omega),
        if_neg (show ¬ i + 1 = xs.length + 1 by omega)]
    have h3 : (xs ++ [v]).getD i JSVal.undef = xs.getD i JSVal.undef := by
      rw [List.getD_eq_getElem?_getD, List.getD_eq_getElem?_getD,
          List.getElem?_append_left (by omega)]
    rw [h3, ← hset, (show xs.length - 1 + 1 = xs.length by omega)]
  · rw [if_neg hset, List.getElem?_append]
    by_cases hi : i < xs.length
    · rw [if_pos (show i < (chainHeap xs).length by rw [chainHeap_length]; omega),
          chainHeap_getElem?, if_pos hi,
          if_pos (show i < xs.length + 1 by omega),
          if_neg (show ¬ i + 1 = xs.length by omega),
          if_neg (show ¬ i + 1 = xs.length + 1 by omega)]
      have h3 : (xs ++ [v]).getD i JSVal.undef = xs.getD i JSVal.undef := by
        rw [List.getD_eq_getElem?_getD, List.getD_eq_getElem?_getD,
            List.getElem?_append_left (by omega)]
      rw [h3]
    · rw [if_neg (show ¬ i < (chainHeap xs).length by rw [chainHeap_length]; omega),
          chainHeap_length]
      by_cases hie : i = xs.length
      · subst hie
        rw [Nat.sub_self]
        have h4 : (xs ++ [v]).getD xs.length JSVal.undef = v := by
          rw [List.getD_eq_getElem?_getD, List.getElem?_concat_length]
          rfl
        rw [if_pos (show xs.length < xs.length + 1 by omega),
            if_pos (show xs.length + 1 = xs.length + 1 by omega), h4]
        rfl
      · rw [List.getElem?_eq_none
              (by simp only [List.length_cons, List.length_nil]; omega),
            if_neg (show ¬ i < xs.length + 1 by omega)]
theorem addToEnd_mkChain (xs : List JSVal) (v : JSVal) :
    addToEnd (mkChain xs) v = Except.ok (mkChain (xs ++ [v])) := by
  cases xs with
  | nil => rfl
  | cons x t =>
      have h1 : addToEnd (mkChain (x :: t)) v =
          Except.ok { heap := setNext (chainHeap (x :: t) ++ [⟨Ptr.null, v⟩])
                                ((x :: t).length - 1) (Ptr.ref (chainHeap (x :: t)).length),
                      head := Ptr.ref 0, tail := Ptr.ref (chainHeap (x :: t)).length,
                      size := ((x :: t).length : Int) + 1 } := rfl
      have hlen : ((x :: t) ++ [v]).length = (x :: t).length + 1 := by simp
      rw [h1, chainHeap_length, chainHeap_snoc (x :: t) v (by simp)]
      unfold mkChain
      rw [if_neg (by rw [hlen]; omega), if_neg (by rw [hlen]; omega), hlen]
      simp only [Except.ok.injEq, LinkedList.mk.injEq]
      refine ⟨trivial, trivial, by simp, by push_cast; ring⟩

theorem foldlM_addToEnd_mkChain (xs : List JSVal) :
    ∀ (ys : List JSVal),
      List.foldlM addToEnd (mkChain ys) xs = Except.ok (mkChain (ys ++ xs)) := by
  induction xs with
  | nil =>
      intro ys
      rw [List.append_nil]
      rfl
  | cons x t ih =>
      intro ys
      rw [List.foldlM_cons, addToEnd_mkChain]
      show List.foldlM addToEnd (mkChain (ys ++ [x])) t = _
      rw [ih (ys ++ [x]), List.append_assoc]
      rfl

/-- The array constructor produces exactly the closed-form chain state. -/
theorem fromArrayE_ok (xs : List JSVal) : fromArrayE xs = Except.ok (mkChain xs) :=
  foldlM_addToEnd_mkChain xs []

theorem chainHeap_chain_from (xs : List JSVal) :
    ∀ (j k : Nat), k + j = xs.length →
      Chain (chainHeap xs) (if k = xs.length then Ptr.null else Ptr.ref k) (xs.drop k) := by
  intro j
  induction j with
  | zero =>
      intro k hk
      have hke : k = xs.length := by omega
      rw [if_pos hke, hke, List.drop_length]
      exact Chain.nil
  | succ j ih =>
      intro k hk
      have hklt : k < xs.length := by omega
      rw [if_neg (by omega : ¬ k = xs.length), List.drop_eq_getElem_cons hklt]
      refine Chain.cons k _ _ _ ?_ (ih (k + 1) (by omega))
      rw [chainHeap_getNode xs k hklt, List.getD_eq_getElem xs JSVal.undef hklt]

/-- The chain reachable from the head of `mkChain xs` spells out `xs`. -/
theorem chain_mkChain (xs : List JSVal) :
    Chain (chainHeap xs) (mkChain xs).head xs := by
  cases xs with
  | nil => exact Chain.nil
  | cons x t =>
      have h := chainHeap_chain_from (x :: t) (x :: t).length 0 (by omega)
      rw [List.drop_zero, if_neg (by simp)] at h
      have hh : (mkChain (x :: t)).head = Ptr.ref 0 := rfl
      rw [hh]
      exact h
theorem searchLoop_spec (h : List NodeObj) (v : JSVal) (p : Ptr) (vs : List JSVal)
    (hc : Chain h p vs) :
    ∀ (idx fuel : Nat), vs.length < fuel →
      searchLoop h v p idx fuel = some (idx + List.indexOf v vs) := by
  induction hc with
  | nil =>
      intro idx fuel hf
      cases fuel with
      | zero => omega
      | succ f => rfl
  | cons n p0 v0 vs0 hget hch ih =>
      intro idx fuel hf
      cases fuel with
      | zero => omega
      | succ f =>
          show (if (getNode h n).value = v then some idx
                else searchLoop h v (getNode h n).next (idx + 1) f) = _
          simp only [hget]
          by_cases hv : v0 = v
          · subst hv
            rw [if_pos rfl, List.indexOf_cons_self]
            simp
          · rw [if_neg hv,
                ih (idx + 1) f (by simp only [List.length_cons] at hf; omega),
                List.indexOf_cons_ne vs0 hv]
            congr 1
            omega

/-- C8: on the list built from the values xs (first conjunct grounds the
closed-form state against the array constructor), `search` returns the
zero-based position of the first value strictly equal to the searched one
under the default decidable equality, and when no value matches it returns
the length of xs, which equals the `size` field, the `count` of the list
(last conjunct). -/
theorem c8_search_first_match_or_count (xs : List JSVal) (v : JSVal) :
    fromArrayE xs = Except.ok (mkChain xs) ∧
    search (mkChain xs) v = some (if v ∈ xs then List.indexOf v xs else xs.length) ∧
    (mkChain xs).size = (xs.length : Int) := by
  refine ⟨fromArrayE_ok xs, ?_, rfl⟩
  have hfuel : xs.length < (chainHeap xs).length + 1 := by rw [chainHeap_length]; omega
  have h := searchLoop_spec (chainHeap xs) v _ _ (chain_mkChain xs) 0
    ((chainHeap xs).length + 1) hfuel
  unfold search
  rw [show (mkChain xs).heap = chainHeap xs from rfl, h]
  by_cases hm : v ∈ xs
  · rw [if_pos hm]
    simp
  · rw [if_neg hm, List.indexOf_eq_length.mpr hm]
    simp

theorem toArrayLoop_iterLoop (h : List NodeObj) :
    ∀ (fuel : Nat) (p : Ptr) (acc : List JSVal),
      toArrayLoop h p acc fuel = Option.map (fun l => acc ++ l) (iterLoop h p fuel) := by
  intro fuel
  induction fuel with
  | zero =>
      intro p acc
      rfl
  | succ f ih =>
      intro p acc
      cases p with
      | null => simp [toArrayLoop, iterLoop]
      | undef => simp [toArrayLoop, iterLoop]
      | ref n =>
          show toArrayLoop h (getNode h n).next (acc ++ [(getNode h n).value]) f =
            Option.map (fun l => acc ++ l)
              (Option.map (fun rest => (getNode h n).value :: rest)
                (iterLoop h (getNode h n).next f))
          rw [ih]
          cases iterLoop h (getNode h n).next f with
          | none => rfl
          | some l => simp [List.append_assoc]

/-- C10: the iteration protocol and toArray walk the same chain from `head`
and produce identical value sequences, for every list state whatsoever. -/
theorem c10_iterator_matches_toArray (L : LinkedList) : iterValues L = toArray L := by
  unfold iterValues toArray
  rw [toArrayLoop_iterLoop]
  cases iterLoop L.heap L.head (L.heap.length + 1) with
  | none => rfl
  | some l => simp
